import Mathlib

/-!
Shallow embedding of the EvaP evaluation core (src/evap/evaluation/models.py):
the course lifecycle state machine, the answer review gate, the publication
quorum, the archival subsystem and the notification recipient aggregation.

Conventions of the embedding:
* Database rows become Lean structures; reverse foreign keys become owned lists
  (a Contribution owns its TextAnswers, a Course owns its Contributions, a
  Semester is its list of Courses).
* Users are referenced by numeric id; an Env carries the user table.
* Python exceptions become Except values through the Err type: an AssertionError,
  ZeroDivisionError, DoesNotExist, MultipleObjectsReturned or the fsm errors.
  A function returning Except.error models the Python call raising; the caller's
  objects are unchanged in that case (the embedding is purely functional, a
  mutation only happens through the returned value).
* Python float arithmetic in can_publish_grades is modelled over Rat; the
  operands are small integer counts, for which the comparison agrees.
-/

namespace Evap

/-- The nine lifecycle states of Course.state (FSMField, default new). -/
inductive CState
  | new
  | prepared
  | lecturerApproved
  | approved
  | inEvaluation
  | evaluated
  | reviewed
  | published
  deriving DecidableEq, Repr

/-- Errors of the core, modelling the Python exceptions that the code can raise.
invalidTransition and reviewIncomplete are the two transition failures of the
spec; the others model NotArchiveable, AssertionError, ZeroDivisionError,
Contribution.DoesNotExist, MultipleObjectsReturned and AttributeError. -/
inductive Err
  | invalidTransition
  | reviewIncomplete
  | notArchiveable
  | assertionError
  | zeroDivisionError
  | doesNotExist
  | multipleObjectsReturned
  | attributeError
  deriving DecidableEq, Repr

/-- TextAnswer: reviewed_answer (nullable), original_answer, checked, hidden. -/
structure TextAnswer where
  reviewed_answer : Option String
  original_answer : String
  checked : Bool
  hidden : Bool
  deriving DecidableEq, Repr

/-- Contribution: contributor (nullable user id; none is the general
contribution), responsible, can_edit, and its owned text answers (the reverse
foreign key of Answer.contribution restricted to TextAnswer). -/
structure Contribution where
  contributor : Option Nat
  responsible : Bool
  can_edit : Bool
  textanswers : List TextAnswer
  deriving DecidableEq, Repr

/-- Course: state, participants, voters (user ids), the two nullable frozen
count fields, and the owned contributions. -/
structure Course where
  state : CState
  participants : List Nat
  voters : List Nat
  _participant_count : Option Nat
  _voter_count : Option Nat
  contributions : List Contribution
  deriving DecidableEq, Repr

/-- UserProfile fields the core reads: email (the EmailNullField returns the
empty string for NULL), delegates, cc_users (user ids) and staff membership. -/
structure UserProfile where
  email : String
  delegates : List Nat
  cc_users : List Nat
  is_staff : Bool
  deriving DecidableEq, Repr

/-- The user table: the universe of user ids and each user's profile. -/
structure Env where
  users : List Nat
  profile : Nat → UserProfile

/-- The externally configured constants MIN_ANSWER_COUNT and
MIN_ANSWER_PERCENTAGE from the settings module. -/
structure Settings where
  MIN_ANSWER_COUNT : Nat
  MIN_ANSWER_PERCENTAGE : Rat
  deriving DecidableEq, Repr

/-- Course.textanswer_set: all text answers of the course's contributions. -/
def Course.textanswer_set (c : Course) : List TextAnswer :=
  (c.contributions.map Contribution.textanswers).flatten

/-- Course.open_textanswer_set: the unchecked text answers of the course. -/
def Course.open_textanswer_set (c : Course) : List TextAnswer :=
  c.textanswer_set.filter (fun a => a.checked = false)

/-- Course.is_fully_checked: no open text answer exists. -/
def Course.is_fully_checked (c : Course) : Bool :=
  c.open_textanswer_set.isEmpty

/-- Course.num_participants: the frozen count if set, else the live count. -/
def Course.num_participants (c : Course) : Nat :=
  match c._participant_count with
  | some n => n
  | none => c.participants.length

/-- Course.num_voters: the frozen count if set, else the live count. -/
def Course.num_voters (c : Course) : Nat :=
  match c._voter_count with
  | some n => n
  | none => c.voters.length

/-- Course.due_participants: participants that are not voters. -/
def Course.due_participants (c : Course) : List Nat :=
  c.participants.filter (fun u => !c.voters.contains u)

/-- Course.is_archived: asserts that the two frozen counts are both set or both
unset (AssertionError otherwise), then reports whether they are set. -/
def Course.is_archived (c : Course) : Except Err Bool :=
  if c._participant_count.isNone = c._voter_count.isNone then
    Except.ok c._participant_count.isSome
  else
    Except.error Err.assertionError

/-- Course.is_archiveable: not archived and state in [new, published]. -/
def Course.is_archiveable (c : Course) : Except Err Bool :=
  match c.is_archived with
  | Except.error e => Except.error e
  | Except.ok a =>
      Except.ok (!a && (c.state == CState.new || c.state == CState.published))

/-- Course.general_contribution: contributions.get(contributor=None); none on
DoesNotExist (caught in the source and turned into None), error on
MultipleObjectsReturned. -/
def Course.general_contribution (c : Course) : Except Err (Option Contribution) :=
  match c.contributions.filter (fun k => k.contributor.isNone) with
  | [] => Except.ok none
  | [k] => Except.ok (some k)
  | _ => Except.error Err.multipleObjectsReturned

/-- Course.save: after saving, create a general contribution (contributor=None,
default flags) if none exists yet. -/
def Course.save (c : Course) : Except Err Course :=
  match c.general_contribution with
  | Except.error e => Except.error e
  | Except.ok none =>
      Except.ok { c with contributions := c.contributions ++ [⟨none, false, false, []⟩] }
  | Except.ok (some _) => Except.ok c

/-- Course._archive: raise NotArchiveable unless archiveable, else freeze the
live participant and voter counts and save. -/
def Course.archiveCourse (c : Course) : Except Err Course :=
  match c.is_archiveable with
  | Except.error e => Except.error e
  | Except.ok false => Except.error Err.notArchiveable
  | Except.ok true =>
      Course.save { c with
        _participant_count := some c.participants.length,
        _voter_count := some c.voters.length }

/-- Course.can_publish_grades: num_voters >= MIN_ANSWER_COUNT and
float(num_voters) / num_participants >= MIN_ANSWER_PERCENTAGE. The Python and
short-circuits, so the division (ZeroDivisionError when num_participants is 0)
is only reached when the first conjunct holds. -/
def Course.can_publish_grades (st : Settings) (c : Course) : Except Err Bool :=
  if c.num_voters ≥ st.MIN_ANSWER_COUNT then
    if c.num_participants = 0 then
      Except.error Err.zeroDivisionError
    else
      Except.ok (decide (st.MIN_ANSWER_PERCENTAGE ≤ (c.num_voters : Rat) / (c.num_participants : Rat)))
  else
    Except.ok false

/-- UserProfile.represented_users of user u: the users who list u among their
delegates (the reverse side of the delegates relation). -/
def representedUsers (e : Env) (u : Nat) : List Nat :=
  e.users.filter (fun w => (e.profile w).delegates.contains u)

/-- Course.is_user_contributor: some contribution has this contributor. -/
def Course.is_user_contributor (c : Course) (u : Nat) : Bool :=
  c.contributions.any (fun k => k.contributor == some u)

/-- Course.is_user_contributor_or_delegate: the user contributes, or some user
represented by them contributes. -/
def Course.is_user_contributor_or_delegate (c : Course) (e : Env) (u : Nat) : Bool :=
  c.is_user_contributor u ||
    (representedUsers e u).any (fun w => c.contributions.any (fun k => k.contributor == some w))

/-- Course.can_user_see_results: staff always; on a published course the quorum
or contributor-or-delegate decides (the or short-circuits, so the quorum's
ZeroDivisionError propagates); otherwise false. -/
def Course.can_user_see_results (c : Course) (st : Settings) (e : Env) (u : Nat) : Except Err Bool :=
  if (e.profile u).is_staff then
    Except.ok true
  else if c.state == CState.published then
    match Course.can_publish_grades st c with
    | Except.error err => Except.error err
    | Except.ok true => Except.ok true
    | Except.ok false => Except.ok (c.is_user_contributor_or_delegate e u)
  else
    Except.ok false

/-- Course.responsible_contributor: contributions.get(responsible=True), giving
its (possibly null) contributor; DoesNotExist when no contribution is
responsible, MultipleObjectsReturned when several are. -/
def Course.responsible_contributor (c : Course) : Except Err (Option Nat) :=
  match c.contributions.filter Contribution.responsible with
  | [] => Except.error Err.doesNotExist
  | [k] => Except.ok k.contributor
  | _ => Except.error Err.multipleObjectsReturned

/-- The nine transition methods declared on Course. -/
inductive TransitionName
  | ready_for_contributors
  | contributor_approve
  | staff_approve
  | revert_to_new
  | evaluation_begin
  | evaluation_end
  | review_finished
  | publish
  | revoke
  deriving DecidableEq, Repr

/-- The source states of each transition decorator. -/
def sourceStates : TransitionName → List CState
  | TransitionName.ready_for_contributors => [CState.new, CState.lecturerApproved]
  | TransitionName.contributor_approve => [CState.prepared]
  | TransitionName.staff_approve => [CState.new, CState.prepared, CState.lecturerApproved]
  | TransitionName.revert_to_new => [CState.prepared]
  | TransitionName.evaluation_begin => [CState.approved]
  | TransitionName.evaluation_end => [CState.inEvaluation]
  | TransitionName.review_finished => [CState.evaluated]
  | TransitionName.publish => [CState.reviewed]
  | TransitionName.revoke => [CState.published]

/-- The target state of each transition decorator. -/
def targetState : TransitionName → CState
  | TransitionName.ready_for_contributors => CState.prepared
  | TransitionName.contributor_approve => CState.lecturerApproved
  | TransitionName.staff_approve => CState.approved
  | TransitionName.revert_to_new => CState.new
  | TransitionName.evaluation_begin => CState.inEvaluation
  | TransitionName.evaluation_end => CState.evaluated
  | TransitionName.review_finished => CState.reviewed
  | TransitionName.publish => CState.published
  | TransitionName.revoke => CState.reviewed

/-- The conditions list of each transition decorator: only review_finished has
one, is_fully_checked. -/
def conditionsMet (t : TransitionName) (c : Course) : Bool :=
  match t with
  | TransitionName.review_finished => c.is_fully_checked
  | _ => true

/-- Modelled from the spec: the transition execution semantics of the
django_fsm decorator library, which is not part of this repository's sources.
Per the spec's contract, a transition whose current state is not in its source
set fails with InvalidTransition; a transition whose guard fails (only
review_finished has one) fails with ReviewIncomplete; either failure leaves the
course unchanged; a success atomically moves the state to the target. The
source/target/guard table itself is taken from the decorators in the source. -/
def applyTransition (t : TransitionName) (c : Course) : Course × Option Err :=
  if c.state ∈ sourceStates t then
    if conditionsMet t c then
      ({ c with state := targetState t }, none)
    else
      (c, some Err.reviewIncomplete)
  else
    (c, some Err.invalidTransition)

/-- Semester.is_archiveable: all courses of the semester are archiveable, with
the short-circuit evaluation of the Python all(). -/
def semesterAllArchiveable : List Course → Except Err Bool
  | [] => Except.ok true
  | c :: rest =>
    match c.is_archiveable with
    | Except.error e => Except.error e
    | Except.ok false => Except.ok false
    | Except.ok true => semesterAllArchiveable rest

/-- Semester.archive: raise NotArchiveable unless every course is archiveable,
else run Course._archive on each course in order. -/
def Semester.archive (courses : List Course) : Except Err (List Course) :=
  match semesterAllArchiveable courses with
  | Except.error e => Except.error e
  | Except.ok false => Except.error Err.notArchiveable
  | Except.ok true => courses.mapM Course.archiveCourse

/-- Inner loop of Semester.is_archived: the all() generator comparing every
course's is_archived to the first course's value, with short-circuiting. -/
def semesterCheckAll (first : Bool) : List Course → Except Err Bool
  | [] => Except.ok true
  | c :: rest =>
    match c.is_archived with
    | Except.error e => Except.error e
    | Except.ok a => if a = first then semesterCheckAll first rest else Except.ok false

/-- Semester.is_archived: False for an empty semester; otherwise asserts that
every course agrees with the first course's is_archived (AssertionError on a
mixed semester) and returns that common value. -/
def Semester.is_archived (courses : List Course) : Except Err Bool :=
  match courses with
  | [] => Except.ok false
  | c0 :: _ =>
    match c0.is_archived with
    | Except.error e => Except.error e
    | Except.ok first =>
      match semesterCheckAll first courses with
      | Except.error e => Except.error e
      | Except.ok true => Except.ok first
      | Except.ok false => Except.error Err.assertionError

/-- Both frozen count fields set or both unset: the data-model invariant that
Course.is_archived asserts. -/
def Course.wellFormedCounts (c : Course) : Bool :=
  c._participant_count.isNone = c._voter_count.isNone

/-- The recipient_groups argument of EmailTemplate.recipient_list_for_course:
membership of each of the five group names in the passed collection. -/
structure RecipientGroups where
  responsible : Bool
  contributors : Bool
  editors : Bool
  all_participants : Bool
  due_participants : Bool
  deriving DecidableEq, Repr

/-- EmailTemplate.recipient_list_for_course: the responsible contributor when
requested, then the contributors (or else the can_edit contributors), then the
participants (or else the due participants). Entries are possibly-null user
references, as in the Python list of objects. -/
def recipient_list_for_course (c : Course) (g : RecipientGroups) : Except Err (List (Option Nat)) :=
  match (if g.responsible then (c.responsible_contributor).map (fun r => [r]) else Except.ok []) with
  | Except.error e => Except.error e
  | Except.ok r1 =>
    let r2 : List (Option Nat) :=
      if g.contributors then
        (c.contributions.filter (fun k => !k.contributor.isNone)).map Contribution.contributor
      else if g.editors then
        ((c.contributions.filter (fun k => !k.contributor.isNone)).filter Contribution.can_edit).map Contribution.contributor
      else []
    let r3 : List (Option Nat) :=
      if g.all_participants then c.participants.map some
      else if g.due_participants then c.due_participants.map some
      else []
    Except.ok (r1 ++ r2 ++ r3)

/-- user_course_map.setdefault(user, []).append(course): append to the entry of
the key if present, else add a new singleton entry at the end. -/
def mapAppend (m : List (Nat × List Course)) (u : Nat) (c : Course) : List (Nat × List Course) :=
  match m with
  | [] => [(u, [c])]
  | (v, cs) :: rest =>
    if v = u then (v, cs ++ [c]) :: rest else (v, cs) :: mapAppend rest u c

/-- Inner loop of send_to_users_in_courses over one course's recipient list:
a null recipient fails at user.email (AttributeError); a recipient without an
email is skipped; then a null responsible fails at responsible.cc_users
(AttributeError); a cc_user or delegate of the responsible is skipped; anyone
else has the course appended to their entry. -/
def processRecipients (e : Env) (r : Option Nat) (course : Course) :
    List (Option Nat) → List (Nat × List Course) → Except Err (List (Nat × List Course))
  | [], m => Except.ok m
  | none :: _, _ => Except.error Err.attributeError
  | some u :: us, m =>
    if (e.profile u).email = "" then
      processRecipients e r course us m
    else
      match r with
      | none => Except.error Err.attributeError
      | some rr =>
        if !((e.profile rr).cc_users.contains u) && !((e.profile rr).delegates.contains u) then
          processRecipients e r course us (mapAppend m u course)
        else
          processRecipients e r course us m

/-- Outer loop of send_to_users_in_courses: per course, read the responsible
contributor, compute the recipient list, and fold it into the map. -/
def sendAux (e : Env) (g : RecipientGroups) :
    List Course → List (Nat × List Course) → Except Err (List (Nat × List Course))
  | [], m => Except.ok m
  | course :: rest, m =>
    match course.responsible_contributor with
    | Except.error err => Except.error err
    | Except.ok r =>
      match recipient_list_for_course course g with
      | Except.error err => Except.error err
      | Except.ok recips =>
        match processRecipients e r course recips m with
        | Except.error err => Except.error err
        | Except.ok m2 => sendAux e g rest m2

/-- EmailTemplate.send_to_users_in_courses: build the user to course-list map
(the subsequent send_to_user calls are mail transport, outside the core). -/
def send_to_users_in_courses (e : Env) (g : RecipientGroups) (courses : List Course) :
    Except Err (List (Nat × List Course)) :=
  sendAux e g courses []

/-- The per-user filter of send_to_users_in_courses for a course whose
responsible contributor is rr: nonempty email, not a cc_user and not a delegate
of rr. -/
def passFilter (e : Env) (rr : Nat) (u : Nat) : Bool :=
  !((e.profile u).email = "") && !((e.profile rr).cc_users.contains u) &&
    !((e.profile rr).delegates.contains u)

/-- A user is charged a course by send_to_users_in_courses: they occur in the
course's recipient list, have an email, and are neither cc_user nor delegate of
the course's responsible contributor. -/
def chargedFor (e : Env) (g : RecipientGroups) (c : Course) (u : Nat) : Bool :=
  match c.responsible_contributor, recipient_list_for_course c g with
  | Except.ok (some rr), Except.ok recips => recips.contains (some u) && passFilter e rr u
  | _, _ => false

/-- TextAnswer.answer: reviewed_answer or original_answer, with Python
truthiness (None and the empty string both fall back to the original). -/
def TextAnswer.answer (a : TextAnswer) : String :=
  match a.reviewed_answer with
  | some s => if s = "" then a.original_answer else s
  | none => a.original_answer

/-- The course list of a user id in the aggregation map ([] when absent). -/
def lookupCourses : List (Nat × List Course) → Nat → List Course
  | [], _ => []
  | p :: rest, u => if p.1 = u then p.2 else lookupCourses rest u

/-- All keys of the aggregation map are distinct (a Python dict property). -/
def distinctKeys (m : List (Nat × List Course)) : Prop :=
  m.Pairwise (fun p q => p.1 ≠ q.1)

/-- Every entry of the aggregation map has a nonempty course list. -/
def valuesNonempty (m : List (Nat × List Course)) : Prop :=
  ∀ p ∈ m, p.2 ≠ []

/-- How many times user u gets the course appended while one recipient list is
processed with responsible contributor rr: the occurrences of u that pass the
email/cc_user/delegate filter. -/
def chargeCount (e : Env) (rr : Nat) (u : Nat) : List (Option Nat) → Nat
  | [] => 0
  | x :: us => (if x == some u && passFilter e rr u then 1 else 0) + chargeCount e rr u us

/-- How many times user u gets course c appended by send_to_users_in_courses. -/
def courseCharge (e : Env) (g : RecipientGroups) (u : Nat) (c : Course) : Nat :=
  match c.responsible_contributor, recipient_list_for_course c g with
  | Except.ok (some rr), Except.ok recips => chargeCount e rr u recips
  | _, _ => 0

/-- The course list accumulated for user u over a list of courses. -/
def specCharge (e : Env) (g : RecipientGroups) (u : Nat) : List Course → List Course
  | [] => []
  | c :: rest => List.replicate (courseCharge e g u c) c ++ specCharge e g u rest

/-- The course's responsible contribution is unique and has a contributor. -/
def goodResp (c : Course) : Prop :=
  ∃ rr, c.responsible_contributor = Except.ok (some rr)

/-- Course states reachable through the core: a course is created with no
contributions and saved, and is afterwards mutated only by save, by the
lifecycle transitions and by Course._archive. -/
inductive Reachable : Course → Prop
  | created (c c' : Course) : c.contributions = [] → Course.save c = Except.ok c' → Reachable c'
  | saved (c c' : Course) : Reachable c → Course.save c = Except.ok c' → Reachable c'
  | transitioned (c : Course) (t : TransitionName) : Reachable c → Reachable (applyTransition t c).1
  | archived (c c' : Course) : Reachable c → Course.archiveCourse c = Except.ok c' → Reachable c'

/-- A settings instance with MIN_ANSWER_COUNT 0 and MIN_ANSWER_PERCENTAGE 1/2. -/
def settingsZero : Settings := ⟨0, 1/2⟩

/-- A course with no participants, no voters and live counts. -/
def emptyCourse : Course :=
  { state := CState.new, participants := [], voters := [],
    _participant_count := none, _voter_count := none, contributions := [] }

/-- An unchecked text answer. -/
def demoAnswerOpen : TextAnswer := ⟨none, "needs review", false, false⟩

/-- A course in state evaluated with one unchecked text answer. -/
def demoCourseEvaluated : Course :=
  { state := CState.evaluated, participants := [1], voters := [1],
    _participant_count := none, _voter_count := none,
    contributions := [⟨some 5, true, true, [demoAnswerOpen]⟩] }

/-- A published course whose counts are frozen. -/
def demoArchivedCourse : Course :=
  { state := CState.published, participants := [1], voters := [1],
    _participant_count := some 3, _voter_count := some 2, contributions := [] }

/-- A fresh course in state new with live counts. -/
def demoFreshCourse : Course :=
  { state := CState.new, participants := [1, 2], voters := [],
    _participant_count := none, _voter_count := none, contributions := [] }

/-- A course in state inEvaluation, hence not archiveable. -/
def demoInEvalCourse : Course :=
  { state := CState.inEvaluation, participants := [1, 2], voters := [1],
    _participant_count := none, _voter_count := none, contributions := [] }

/-- A user table where user 1 is a plain non-staff user with an email. -/
def demoEnvPlain : Env := ⟨[1], fun _ => ⟨"user@example.com", [], [], false⟩⟩

/-- A published course with zero participants whose only contribution belongs
to user 1 (its responsible contributor). -/
def demoPublishedEmpty : Course :=
  { state := CState.published, participants := [], voters := [],
    _participant_count := none, _voter_count := none,
    contributions := [⟨some 1, true, true, []⟩] }

/-- A course with no contributions, as created before the first save. -/
def demoBlankCourse : Course :=
  { state := CState.new, participants := [], voters := [],
    _participant_count := none, _voter_count := none, contributions := [] }

/-- demoBlankCourse after its first save: the general contribution exists. -/
def demoSavedCourse : Course :=
  { demoBlankCourse with contributions := [⟨none, false, false, []⟩] }

/-- User table for the aggregation scenario: user 1 is a participant who has
not voted, with an email; users 10 and 20 are the responsible contributors of
the two courses; user 1 is a cc_user of user 20. -/
def demoEnvMail : Env :=
  ⟨[1, 10, 20], fun u =>
    if u = 1 then ⟨"student@example.com", [], [], false⟩
    else if u = 10 then ⟨"profa@example.com", [], [], false⟩
    else ⟨"profb@example.com", [], [1], false⟩⟩

/-- The due_participants recipient group selection. -/
def demoGroupsDue : RecipientGroups := ⟨false, false, false, false, true⟩

/-- Course A: responsible contributor 10, user 1 a due participant. -/
def demoCourseA : Course :=
  { state := CState.inEvaluation, participants := [1], voters := [],
    _participant_count := none, _voter_count := none,
    contributions := [⟨some 10, true, true, []⟩] }

/-- Course B: responsible contributor 20 (who ccs user 1), user 1 a due
participant. -/
def demoCourseB : Course :=
  { state := CState.inEvaluation, participants := [1], voters := [],
    _participant_count := none, _voter_count := none,
    contributions := [⟨some 20, true, true, []⟩] }

theorem conditionsMet_false {t : TransitionName} {c : Course}
    (h : conditionsMet t c = false) :
    t = TransitionName.review_finished ∧ c.is_fully_checked = false := by
  cases t <;> simp_all [conditionsMet]

/-- C1: for every transition of the lifecycle table and every course, applying
the transition succeeds iff the course's state is in the transition's source
set and, for review_finished, all of the course's text answers are checked; on
success the new state is the transition's target; on failure the course is
unchanged. -/
theorem lifecycle_transition_spec (t : TransitionName) (c : Course) :
    ((applyTransition t c).2 = none ↔
      c.state ∈ sourceStates t ∧
        (t = TransitionName.review_finished → c.is_fully_checked = true)) ∧
    ((applyTransition t c).2 = none → ((applyTransition t c).1).state = targetState t) ∧
    (∀ e, (applyTransition t c).2 = some e → (applyTransition t c).1 = c) := by
  by_cases hs : c.state ∈ sourceStates t
  · cases hcm : conditionsMet t c with
    | false =>
      obtain ⟨ht, hf⟩ := conditionsMet_false hcm
      subst ht
      simp [applyTransition, hs, hcm, hf]
    | true =>
      refine ⟨?_, ?_, ?_⟩
      · constructor
        · intro _
          exact ⟨hs, fun ht => by subst ht; simpa [conditionsMet] using hcm⟩
        · intro _
          simp [applyTransition, hs, hcm]
      · intro _
        simp [applyTransition, hs, hcm]
      · intro e he
        simp [applyTransition, hs, hcm] at he
  · simp [applyTransition, hs]

/-- C1 witness: staff_approve on a fresh course in state new succeeds and
moves the course to approved. -/
theorem lifecycle_transition_spec_witness :
    ((applyTransition TransitionName.staff_approve demoFreshCourse).2 = none ↔
      demoFreshCourse.state ∈ sourceStates TransitionName.staff_approve ∧
        (TransitionName.staff_approve = TransitionName.review_finished →
          demoFreshCourse.is_fully_checked = true)) ∧
    ((applyTransition TransitionName.staff_approve demoFreshCourse).2 = none →
      ((applyTransition TransitionName.staff_approve demoFreshCourse).1).state =
        targetState TransitionName.staff_approve) ∧
    (∀ e, (applyTransition TransitionName.staff_approve demoFreshCourse).2 = some e →
      (applyTransition TransitionName.staff_approve demoFreshCourse).1 = demoFreshCourse) :=
  lifecycle_transition_spec TransitionName.staff_approve demoFreshCourse

/-- C2 (code bug): with MIN_ANSWER_COUNT configured to 0, a course with zero
participants and zero voters makes can_publish_grades raise ZeroDivisionError
(float(0) / 0) instead of returning false: the Python and only short-circuits
past the division when num_voters < MIN_ANSWER_COUNT. -/
theorem can_publish_grades_zero_participants_raises :
    Course.can_publish_grades settingsZero emptyCourse = Except.error Err.zeroDivisionError := rfl

theorem is_fully_checked_eq_false {c : Course}
    (h : ∃ a ∈ c.textanswer_set, a.checked = false) :
    c.is_fully_checked = false := by
  obtain ⟨a, ha, hc⟩ := h
  have hmem : a ∈ c.open_textanswer_set := List.mem_filter.mpr ⟨ha, by simp [hc]⟩
  have hne : c.open_textanswer_set ≠ [] := List.ne_nil_of_mem hmem
  simpa [Course.is_fully_checked, List.isEmpty_iff] using hne

/-- C3: a course in state evaluated with an unchecked text answer fails
review_finished with ReviewIncomplete and stays unchanged; ReviewIncomplete is
distinct from the InvalidTransition error that any course outside the source
set of review_finished gets. -/
theorem review_finished_error_distinct (c : Course)
    (hstate : c.state = CState.evaluated)
    (hopen : ∃ a ∈ c.textanswer_set, a.checked = false) :
    (applyTransition TransitionName.review_finished c).2 = some Err.reviewIncomplete ∧
    (applyTransition TransitionName.review_finished c).1 = c ∧
    Err.reviewIncomplete ≠ Err.invalidTransition ∧
    (∀ c2 : Course, c2.state ∉ sourceStates TransitionName.review_finished →
      (applyTransition TransitionName.review_finished c2).2 = some Err.invalidTransition) := by
  have hf := is_fully_checked_eq_false hopen
  have hmem : c.state ∈ sourceStates TransitionName.review_finished := by
    simp [sourceStates, hstate]
  refine ⟨?_, ?_, by simp, ?_⟩
  · simp [applyTransition, hmem, conditionsMet, hf]
  · simp [applyTransition, hmem, conditionsMet, hf]
  · intro c2 h2
    simp [applyTransition, h2]

/-- C3 witness: the concrete evaluated course with one unchecked answer. -/
theorem review_finished_error_distinct_witness :
    (applyTransition TransitionName.review_finished demoCourseEvaluated).2 =
      some Err.reviewIncomplete :=
  (review_finished_error_distinct demoCourseEvaluated rfl
    ⟨demoAnswerOpen, by simp [Course.textanswer_set, demoCourseEvaluated], rfl⟩).1

/-- C5: a course with frozen counts fails Course._archive with NotArchiveable,
and no core operation (any lifecycle transition, save, or archival itself)
changes the frozen count fields. -/
theorem archived_course_counts_immutable (c : Course) (p v : Nat)
    (hp : c._participant_count = some p) (hv : c._voter_count = some v) :
    Course.archiveCourse c = Except.error Err.notArchiveable ∧
    (∀ t, ((applyTransition t c).1)._participant_count = some p ∧
      ((applyTransition t c).1)._voter_count = some v) ∧
    (∀ c', Course.save c = Except.ok c' →
      c'._participant_count = some p ∧ c'._voter_count = some v) := by
  refine ⟨?_, ?_, ?_⟩
  · simp [Course.archiveCourse, Course.is_archiveable, Course.is_archived, hp, hv]
  · intro t
    unfold applyTransition
    split
    · split <;> simp [hp, hv]
    · simp [hp, hv]
  · intro c' h
    unfold Course.save at h
    split at h
    · simp at h
    · cases h
      exact ⟨hp, hv⟩
    · cases h
      exact ⟨hp, hv⟩

/-- C5 witness: the concrete archived course. -/
theorem archived_course_counts_immutable_witness :
    Course.archiveCourse demoArchivedCourse = Except.error Err.notArchiveable :=
  (archived_course_counts_immutable demoArchivedCourse 3 2 rfl rfl).1

/-- C10: the effective answer of a TextAnswer is the reviewed value when it is
present and nonempty, and the original value when the reviewed value is absent
or is the empty string. -/
theorem textanswer_effective_answer (a : TextAnswer) :
    (∀ s, a.reviewed_answer = some s → s ≠ "" → a.answer = s) ∧
    (a.reviewed_answer = none → a.answer = a.original_answer) ∧
    (a.reviewed_answer = some "" → a.answer = a.original_answer) := by
  refine ⟨?_, ?_, ?_⟩
  · intro s hs hne
    simp [TextAnswer.answer, hs, hne]
  · intro h
    simp [TextAnswer.answer, h]
  · intro h
    simp [TextAnswer.answer, h]

/-- C10 witness: a reviewed answer wins; an absent review falls back. -/
theorem textanswer_effective_answer_witness :
    (⟨some "fixed", "orig", true, false⟩ : TextAnswer).answer = "fixed" :=
  (textanswer_effective_answer ⟨some "fixed", "orig", true, false⟩).1 "fixed" rfl (by decide)

theorem is_archived_error_eq {c : Course} {e : Err}
    (h : Course.is_archived c = Except.error e) : e = Err.assertionError := by
  unfold Course.is_archived at h
  split at h
  · cases h
  · cases h
    rfl

theorem semesterCheckAll_error {f : Bool} {cs : List Course} {e : Err}
    (h : semesterCheckAll f cs = Except.error e) : e = Err.assertionError := by
  induction cs with
  | nil => simp [semesterCheckAll] at h
  | cons c rest ih =>
    cases hc : Course.is_archived c with
    | error e1 =>
      simp only [semesterCheckAll, hc] at h
      cases h
      exact is_archived_error_eq hc
    | ok a =>
      simp only [semesterCheckAll, hc] at h
      by_cases ha : a = f
      · rw [if_pos ha] at h
        exact ih h
      · rw [if_neg ha] at h
        cases h

theorem semesterCheckAll_ok_true {f : Bool} {cs : List Course}
    (h : semesterCheckAll f cs = Except.ok true) :
    ∀ c ∈ cs, Course.is_archived c = Except.ok f := by
  induction cs with
  | nil => simp
  | cons c rest ih =>
    cases hc : Course.is_archived c with
    | error e1 =>
      simp only [semesterCheckAll, hc] at h
      cases h
    | ok a =>
      simp only [semesterCheckAll, hc] at h
      by_cases ha : a = f
      · subst ha
        rw [if_pos rfl] at h
        intro x hx
        rcases List.mem_cons.mp hx with rfl | hx2
        · exact hc
        · exact ih h x hx2
      · rw [if_neg ha] at h
        simp at h

theorem semesterCheckAll_of_all {f : Bool} {cs : List Course}
    (h : ∀ c ∈ cs, Course.is_archived c = Except.ok f) :
    semesterCheckAll f cs = Except.ok true := by
  induction cs with
  | nil => rfl
  | cons c rest ih =>
    have hc := h c (List.mem_cons_self c rest)
    simp only [semesterCheckAll, hc, if_pos rfl]
    exact ih (fun x hx => h x (List.mem_cons_of_mem c hx))

/-- C9 (amended): a nonempty semester's is_archived holds iff all member
courses are archived, the empty semester is reported unarchived, and a mixed
semester fails the assertion instead of returning a value. -/
theorem semester_is_archived_spec (courses : List Course) :
    (Semester.is_archived courses = Except.ok true ↔
      courses ≠ [] ∧ ∀ c ∈ courses, Course.is_archived c = Except.ok true) ∧
    ((∃ c ∈ courses, Course.is_archived c = Except.ok true) →
     (∃ c ∈ courses, Course.is_archived c = Except.ok false) →
     Semester.is_archived courses = Except.error Err.assertionError) := by
  cases courses with
  | nil =>
    constructor
    · constructor
      · intro h
        simp [Semester.is_archived] at h
      · rintro ⟨hne, -⟩
        exact absurd rfl hne
    · rintro ⟨c, hc, -⟩ -
      simp at hc
  | cons c0 rest =>
    constructor
    · constructor
      · intro h
        cases h0 : Course.is_archived c0 with
        | error e1 =>
          simp only [Semester.is_archived, h0] at h
          cases h
        | ok first =>
          cases hall : semesterCheckAll first (c0 :: rest) with
          | error e1 =>
            simp only [Semester.is_archived, h0, hall] at h
            cases h
          | ok b =>
            cases b with
            | false =>
              simp only [Semester.is_archived, h0, hall] at h
              cases h
            | true =>
              simp only [Semester.is_archived, h0, hall] at h
              have hf : first = true := by
                cases h
                rfl
              subst hf
              exact ⟨by simp, semesterCheckAll_ok_true hall⟩
      · rintro ⟨-, hall⟩
        have h0 : Course.is_archived c0 = Except.ok true := hall c0 (by simp)
        have hck := semesterCheckAll_of_all (f := true) hall
        simp [Semester.is_archived, h0, hck]
    · intro htrue hfalse
      cases h0 : Course.is_archived c0 with
      | error e1 =>
        have he : e1 = Err.assertionError := is_archived_error_eq h0
        subst he
        simp [Semester.is_archived, h0]
      | ok first =>
        cases hall : semesterCheckAll first (c0 :: rest) with
        | error e1 =>
          have he : e1 = Err.assertionError := semesterCheckAll_error hall
          subst he
          simp [Semester.is_archived, h0, hall]
        | ok b =>
          cases b with
          | false => simp [Semester.is_archived, h0, hall]
          | true =>
            exfalso
            have huni := semesterCheckAll_ok_true hall
            obtain ⟨x, hx, hxt⟩ := htrue
            obtain ⟨y, hy, hyf⟩ := hfalse
            have h1 := huni x hx
            have h2 := huni y hy
            rw [hxt] at h1
            rw [hyf] at h2
            cases h1
            cases h2

/-- C9 counterexample: for the empty semester, is_archived returns false even
though all (zero) member courses are vacuously archived, so the claimed
equivalence fails for a semester with no courses. -/
theorem semester_is_archived_empty_cex :
    ¬ (Semester.is_archived ([] : List Course) = Except.ok true ↔
       ∀ c ∈ ([] : List Course), Course.is_archived c = Except.ok true) := by
  simp [Semester.is_archived]

/-- C9 witness: a mixed semester of one archived and one unarchived course
fails with the assertion error. -/
theorem semester_is_archived_spec_witness :
    Semester.is_archived [demoArchivedCourse, demoFreshCourse] =
      Except.error Err.assertionError :=
  (semester_is_archived_spec [demoArchivedCourse, demoFreshCourse]).2
    ⟨demoArchivedCourse, by simp, rfl⟩ ⟨demoFreshCourse, by simp, rfl⟩

theorem is_archived_ok_of_wellFormed {c : Course} (h : c.wellFormedCounts = true) :
    Course.is_archived c = Except.ok c._participant_count.isSome := by
  have hp : c._participant_count.isNone = c._voter_count.isNone := by
    simpa [Course.wellFormedCounts] using h
  simp [Course.is_archived, hp]

theorem is_archiveable_ok_of_wellFormed {c : Course} (h : c.wellFormedCounts = true) :
    Course.is_archiveable c =
      Except.ok (!c._participant_count.isSome &&
        (c.state == CState.new || c.state == CState.published)) := by
  simp [Course.is_archiveable, is_archived_ok_of_wellFormed h]

theorem semesterAllArchiveable_false {courses : List Course}
    (hwf : ∀ c ∈ courses, c.wellFormedCounts = true)
    (hbad : ∃ c ∈ courses, Course.is_archiveable c = Except.ok false) :
    semesterAllArchiveable courses = Except.ok false := by
  induction courses with
  | nil => simp at hbad
  | cons c rest ih =>
    have hc := is_archiveable_ok_of_wellFormed (hwf c (by simp))
    cases hb : (!c._participant_count.isSome &&
        (c.state == CState.new || c.state == CState.published)) with
    | false =>
      rw [hb] at hc
      simp [semesterAllArchiveable, hc]
    | true =>
      rw [hb] at hc
      have hrest : semesterAllArchiveable rest = Except.ok false := by
        apply ih (fun x hx => hwf x (List.mem_cons_of_mem c hx))
        rcases hbad with ⟨x, hx, hfalse⟩
        rcases List.mem_cons.mp hx with rfl | hx2
        · rw [hc] at hfalse
          cases hfalse
        · exact ⟨x, hx2, hfalse⟩
      simp [semesterAllArchiveable, hc, hrest]

/-- C4: if every course of the semester has coherent frozen-count fields (the
data-model invariant asserted by Course.is_archived) and at least one course is
not archiveable, Semester.archive fails with NotArchiveable before archiving
any course, so no course's counts are frozen. -/
theorem semester_archive_all_or_nothing (courses : List Course)
    (hwf : ∀ c ∈ courses, c.wellFormedCounts = true)
    (hbad : ∃ c ∈ courses, Course.is_archiveable c = Except.ok false) :
    Semester.archive courses = Except.error Err.notArchiveable := by
  simp [Semester.archive, semesterAllArchiveable_false hwf hbad]

/-- C4 witness: a semester with a fresh course and a course in evaluation
fails to archive. -/
theorem semester_archive_all_or_nothing_witness :
    Semester.archive [demoFreshCourse, demoInEvalCourse] =
      Except.error Err.notArchiveable :=
  semester_archive_all_or_nothing [demoFreshCourse, demoInEvalCourse]
    (by decide) ⟨demoInEvalCourse, by simp, rfl⟩

/-- C7 (code bug): a non-staff user who contributes to a published course with
zero participants gets a ZeroDivisionError from can_user_see_results (raised
inside can_publish_grades and propagated by the or) although the claim says
the call returns true for a contributor. -/
theorem can_user_see_results_zero_participants_raises :
    Course.can_user_see_results demoPublishedEmpty settingsZero demoEnvPlain 1 =
      Except.error Err.zeroDivisionError ∧
    demoPublishedEmpty.is_user_contributor_or_delegate demoEnvPlain 1 = true :=
  ⟨rfl, rfl⟩

theorem applyTransition_contributions (t : TransitionName) (c : Course) :
    ((applyTransition t c).1).contributions = c.contributions := by
  unfold applyTransition
  split
  · split <;> rfl
  · rfl

theorem save_of_no_general {c : Course}
    (h : c.contributions.filter (fun k => k.contributor.isNone) = []) :
    Course.save c = Except.ok
      { c with contributions := c.contributions ++ [⟨none, false, false, []⟩] } := by
  simp [Course.save, Course.general_contribution, h]

theorem save_of_one_general {c : Course} {k : Contribution}
    (h : c.contributions.filter (fun k => k.contributor.isNone) = [k]) :
    Course.save c = Except.ok c := by
  simp [Course.save, Course.general_contribution, h]

/-- C8: every course reachable through the core (created empty then saved, and
mutated only by save, the lifecycle transitions and archival) has exactly one
general contribution: it is created by the first save and never duplicated. -/
theorem general_contribution_unique (c : Course) (h : Reachable c) :
    (c.contributions.filter (fun k => k.contributor.isNone)).length = 1 := by
  induction h with
  | created c0 c' h0 hsave =>
    have hnil : c0.contributions.filter (fun k => k.contributor.isNone) = [] := by
      simp [h0]
    rw [save_of_no_general hnil] at hsave
    cases hsave
    simp [List.filter_append, hnil]
  | saved c0 c' hr hsave ih =>
    obtain ⟨k, hk⟩ := List.length_eq_one.mp ih
    rw [save_of_one_general hk] at hsave
    cases hsave
    exact ih
  | transitioned c0 t hr ih =>
    rw [applyTransition_contributions]
    exact ih
  | archived c0 c' hr harch ih =>
    unfold Course.archiveCourse at harch
    split at harch
    · cases harch
    · cases harch
    · obtain ⟨k, hk⟩ := List.length_eq_one.mp ih
      have hk2 : (({ c0 with
          _participant_count := some c0.participants.length,
          _voter_count := some c0.voters.length } : Course).contributions.filter
            (fun k => k.contributor.isNone)) = [k] := hk
      rw [save_of_one_general hk2] at harch
      cases harch
      exact ih

/-- C8 witness: the blank course saved once has exactly one general
contribution. -/
theorem general_contribution_unique_witness :
    (demoSavedCourse.contributions.filter (fun k => k.contributor.isNone)).length = 1 :=
  general_contribution_unique demoSavedCourse
    (Reachable.created demoBlankCourse demoSavedCourse rfl rfl)

theorem lookupCourses_mapAppend_self (m : List (Nat × List Course)) (u : Nat) (c : Course) :
    lookupCourses (mapAppend m u c) u = lookupCourses m u ++ [c] := by
  induction m with
  | nil => simp [mapAppend, lookupCourses]
  | cons p rest ih =>
    obtain ⟨v, cs⟩ := p
    by_cases hv : v = u
    · subst hv
      simp [mapAppend, lookupCourses]
    · simp [mapAppend, lookupCourses, hv, ih]

theorem lookupCourses_mapAppend_ne (m : List (Nat × List Course)) {u w : Nat}
    (hw : w ≠ u) (c : Course) :
    lookupCourses (mapAppend m u c) w = lookupCourses m w := by
  induction m with
  | nil => simp [mapAppend, lookupCourses, Ne.symm hw]
  | cons p rest ih =>
    obtain ⟨v, cs⟩ := p
    by_cases hv : v = u
    · subst hv
      simp [mapAppend, lookupCourses, Ne.symm hw]
    · simp [mapAppend, lookupCourses, hv, ih]

theorem mapAppend_cons_self (v : Nat) (cs : List Course) (rest : List (Nat × List Course))
    (c : Course) :
    mapAppend ((v, cs) :: rest) v c = (v, cs ++ [c]) :: rest := by
  simp [mapAppend]

theorem mapAppend_cons_ne {v u : Nat} (h : v ≠ u) (cs : List Course)
    (rest : List (Nat × List Course)) (c : Course) :
    mapAppend ((v, cs) :: rest) u c = (v, cs) :: mapAppend rest u c := by
  simp [mapAppend, h]

theorem mapAppend_key_cases {m : List (Nat × List Course)} {u : Nat} {c : Course} :
    ∀ p ∈ mapAppend m u c, p.1 = u ∨ ∃ q ∈ m, q.1 = p.1 := by
  induction m with
  | nil =>
    intro p hp
    simp [mapAppend] at hp
    subst hp
    exact Or.inl rfl
  | cons q rest ih =>
    obtain ⟨v, cs⟩ := q
    intro p hp
    by_cases hv : v = u
    · subst hv
      rw [mapAppend_cons_self] at hp
      rcases List.mem_cons.mp hp with rfl | hp2
      · exact Or.inl rfl
      · exact Or.inr ⟨p, List.mem_cons_of_mem _ hp2, rfl⟩
    · rw [mapAppend_cons_ne hv] at hp
      rcases List.mem_cons.mp hp with rfl | hp2
      · exact Or.inr ⟨(v, cs), List.mem_cons_self _ _, rfl⟩
      · rcases ih p hp2 with h | ⟨q2, hq2, hq2e⟩
        · exact Or.inl h
        · exact Or.inr ⟨q2, List.mem_cons_of_mem _ hq2, hq2e⟩

theorem distinctKeys_mapAppend {m : List (Nat × List Course)} (u : Nat) (c : Course)
    (hd : distinctKeys m) : distinctKeys (mapAppend m u c) := by
  induction m with
  | nil => simp [mapAppend, distinctKeys]
  | cons q rest ih =>
    obtain ⟨v, cs⟩ := q
    rw [distinctKeys, List.pairwise_cons] at hd
    obtain ⟨hhead, htail⟩ := hd
    by_cases hv : v = u
    · subst hv
      rw [mapAppend_cons_self, distinctKeys, List.pairwise_cons]
      exact ⟨hhead, htail⟩
    · rw [mapAppend_cons_ne hv, distinctKeys, List.pairwise_cons]
      refine ⟨?_, ih htail⟩
      intro p hp
      rcases mapAppend_key_cases p hp with h | ⟨q2, hq2, hq2e⟩
      · rw [h]
        exact hv
      · rw [← hq2e]
        exact hhead q2 hq2

theorem valuesNonempty_mapAppend {m : List (Nat × List Course)} (u : Nat) (c : Course)
    (hv : valuesNonempty m) : valuesNonempty (mapAppend m u c) := by
  induction m with
  | nil =>
    intro p hp
    simp [mapAppend] at hp
    subst hp
    simp
  | cons q rest ih =>
    obtain ⟨v, cs⟩ := q
    have hvtail : valuesNonempty rest := fun p hp => hv p (List.mem_cons_of_mem _ hp)
    by_cases hvu : v = u
    · subst hvu
      rw [mapAppend_cons_self]
      intro p hp
      rcases List.mem_cons.mp hp with rfl | hp2
      · simp
      · exact hv p (List.mem_cons_of_mem _ hp2)
    · rw [mapAppend_cons_ne hvu]
      intro p hp
      rcases List.mem_cons.mp hp with rfl | hp2
      · exact hv (v, cs) (List.mem_cons_self _ _)
      · exact ih hvtail p hp2

theorem lookup_eq_of_mem {m : List (Nat × List Course)} {w : Nat} {cs : List Course}
    (hd : distinctKeys m) (hmem : (w, cs) ∈ m) : lookupCourses m w = cs := by
  induction m with
  | nil => simp at hmem
  | cons q rest ih =>
    obtain ⟨v, ds⟩ := q
    rw [distinctKeys, List.pairwise_cons] at hd
    obtain ⟨hhead, htail⟩ := hd
    rcases List.mem_cons.mp hmem with heq | hmem2
    · cases heq
      simp [lookupCourses]
    · have hvw : v ≠ w := hhead (w, cs) hmem2
      simp [lookupCourses, hvw]
      exact ih htail hmem2

theorem exists_mem_iff_lookup_ne_nil {m : List (Nat × List Course)} {w : Nat}
    (hv : valuesNonempty m) :
    (∃ cs, (w, cs) ∈ m) ↔ lookupCourses m w ≠ [] := by
  induction m with
  | nil => simp [lookupCourses]
  | cons q rest ih =>
    obtain ⟨v, ds⟩ := q
    have hvtail : valuesNonempty rest := fun p hp => hv p (List.mem_cons_of_mem _ hp)
    by_cases hvw : v = w
    · subst hvw
      simp only [lookupCourses, if_pos rfl]
      constructor
      · intro _
        exact hv (v, ds) (List.mem_cons_self _ _)
      · intro _
        exact ⟨ds, List.mem_cons_self _ _⟩
    · simp only [lookupCourses, if_neg hvw]
      rw [← ih hvtail]
      constructor
      · rintro ⟨cs, hcs⟩
        rcases List.mem_cons.mp hcs with heq | hmem2
        · cases heq
          exact absurd rfl hvw
        · exact ⟨cs, hmem2⟩
      · rintro ⟨cs, hcs⟩
        exact ⟨cs, List.mem_cons_of_mem _ hcs⟩

theorem processRecipients_cons_some (e : Env) (rr u : Nat) (course : Course)
    (us : List (Option Nat)) (m : List (Nat × List Course)) :
    processRecipients e (some rr) course (some u :: us) m =
      if (e.profile u).email = "" then
        processRecipients e (some rr) course us m
      else if !((e.profile rr).cc_users.contains u) &&
          !((e.profile rr).delegates.contains u) then
        processRecipients e (some rr) course us (mapAppend m u course)
      else
        processRecipients e (some rr) course us m := rfl

theorem processRecipients_spec (e : Env) (rr : Nat) (course : Course) :
    ∀ (us : List (Option Nat)) (m : List (Nat × List Course)),
    (∀ x ∈ us, x.isSome = true) → distinctKeys m → valuesNonempty m →
    ∃ m2, processRecipients e (some rr) course us m = Except.ok m2 ∧
      distinctKeys m2 ∧ valuesNonempty m2 ∧
      ∀ w, lookupCourses m2 w =
        lookupCourses m w ++ List.replicate (chargeCount e rr w us) course := by
  intro us
  induction us with
  | nil =>
    intro m hsome hd hv
    exact ⟨m, rfl, hd, hv, fun w => by simp [chargeCount]⟩
  | cons x us ih =>
    intro m hsome hd hv
    cases x with
    | none =>
      have := hsome none (List.mem_cons_self _ _)
      simp at this
    | some u =>
      have hsome2 : ∀ x ∈ us, x.isSome = true :=
        fun x hx => hsome x (List.mem_cons_of_mem _ hx)
      by_cases hemail : (e.profile u).email = ""
      · obtain ⟨m2, hm2, hd2, hv2, hlook⟩ := ih m hsome2 hd hv
        refine ⟨m2, ?_, hd2, hv2, ?_⟩
        · rw [processRecipients_cons_some, if_pos hemail]
          exact hm2
        · intro w
          rw [hlook w]
          have hcnt : chargeCount e rr w (some u :: us) = chargeCount e rr w us := by
            by_cases hw : u = w
            · subst hw
              simp [chargeCount, passFilter, hemail]
            · simp [chargeCount, hw]
          rw [hcnt]
      · by_cases hcc : (!((e.profile rr).cc_users.contains u) &&
            !((e.profile rr).delegates.contains u)) = true
        · obtain ⟨m2, hm2, hd2, hv2, hlook⟩ :=
            ih (mapAppend m u course) hsome2 (distinctKeys_mapAppend u course hd)
              (valuesNonempty_mapAppend u course hv)
          have hcc2 : u ∉ (e.profile rr).cc_users ∧ u ∉ (e.profile rr).delegates := by
            simpa using hcc
          have hpass : passFilter e rr u = true := by
            simp [passFilter, hemail, hcc2.1, hcc2.2]
          refine ⟨m2, ?_, hd2, hv2, ?_⟩
          · rw [processRecipients_cons_some, if_neg hemail, if_pos hcc]
            exact hm2
          · intro w
            rw [hlook w]
            by_cases hw : u = w
            · subst hw
              rw [lookupCourses_mapAppend_self]
              have hcnt : chargeCount e rr u (some u :: us) = 1 + chargeCount e rr u us := by
                simp [chargeCount, hpass]
              rw [hcnt, List.replicate_add, List.replicate_one, List.append_assoc]
            · rw [lookupCourses_mapAppend_ne m (Ne.symm hw) course]
              have hcnt : chargeCount e rr w (some u :: us) = chargeCount e rr w us := by
                simp [chargeCount, hw]
              rw [hcnt]
        · obtain ⟨m2, hm2, hd2, hv2, hlook⟩ := ih m hsome2 hd hv
          have hfail : passFilter e rr u = false := by
            by_cases hBm : u ∈ (e.profile rr).cc_users
            · simp [passFilter, hBm]
            · by_cases hCm : u ∈ (e.profile rr).delegates
              · simp [passFilter, hCm]
              · exfalso
                apply hcc
                simp [hBm, hCm]
          refine ⟨m2, ?_, hd2, hv2, ?_⟩
          · rw [processRecipients_cons_some, if_neg hemail, if_neg hcc]
            exact hm2
          · intro w
            rw [hlook w]
            have hcnt : chargeCount e rr w (some u :: us) = chargeCount e rr w us := by
              by_cases hw : u = w
              · subst hw
                simp [chargeCount, hfail]
              · simp [chargeCount, hw]
            rw [hcnt]

theorem contributor_of_filtered_isSome {l : List Contribution} {x : Option Nat}
    (hx : x ∈ (l.filter (fun k => !k.contributor.isNone)).map Contribution.contributor) :
    x.isSome = true := by
  obtain ⟨k, hk, rfl⟩ := List.mem_map.mp hx
  have h2 := (List.mem_filter.mp hk).2
  cases hko : k.contributor with
  | none =>
    rw [hko] at h2
    simp at h2
  | some a => simp [hko]

theorem contributor_of_editor_isSome {l : List Contribution} {x : Option Nat}
    (hx : x ∈ ((l.filter (fun k => !k.contributor.isNone)).filter
      Contribution.can_edit).map Contribution.contributor) :
    x.isSome = true := by
  obtain ⟨k, hk, rfl⟩ := List.mem_map.mp hx
  have hk2 := (List.mem_filter.mp hk).1
  exact contributor_of_filtered_isSome (List.mem_map_of_mem _ hk2)

theorem mem_r2_isSome (c : Course) (g : RecipientGroups) {x : Option Nat}
    (hx : x ∈ (if g.contributors then
        (c.contributions.filter (fun k => !k.contributor.isNone)).map Contribution.contributor
      else if g.editors then
        ((c.contributions.filter (fun k => !k.contributor.isNone)).filter
          Contribution.can_edit).map Contribution.contributor
      else [])) : x.isSome = true := by
  by_cases hA : g.contributors
  · rw [if_pos hA] at hx
    exact contributor_of_filtered_isSome hx
  · rw [if_neg hA] at hx
    by_cases hB : g.editors
    · rw [if_pos hB] at hx
      exact contributor_of_editor_isSome hx
    · rw [if_neg hB] at hx
      simp at hx

theorem mem_r3_isSome (c : Course) (g : RecipientGroups) {x : Option Nat}
    (hx : x ∈ (if g.all_participants then c.participants.map some
      else if g.due_participants then c.due_participants.map some
      else [])) : x.isSome = true := by
  by_cases hA : g.all_participants
  · rw [if_pos hA] at hx
    obtain ⟨a, _, rfl⟩ := List.mem_map.mp hx
    rfl
  · rw [if_neg hA] at hx
    by_cases hB : g.due_participants
    · rw [if_pos hB] at hx
      obtain ⟨a, _, rfl⟩ := List.mem_map.mp hx
      rfl
    · rw [if_neg hB] at hx
      simp at hx

theorem recipient_list_all_some (c : Course) (g : RecipientGroups) {rr : Nat}
    (h : c.responsible_contributor = Except.ok (some rr)) :
    ∃ recips, recipient_list_for_course c g = Except.ok recips ∧
      ∀ x ∈ recips, x.isSome = true := by
  by_cases hg : g.responsible
  · refine ⟨_, by simp only [recipient_list_for_course, if_pos hg, h, Except.map]; rfl, ?_⟩
    intro x hx
    rcases List.mem_append.mp hx with hx12 | hx3
    · rcases List.mem_append.mp hx12 with hx1 | hx2
      · rw [List.mem_singleton.mp hx1]
        rfl
      · exact mem_r2_isSome c g hx2
    · exact mem_r3_isSome c g hx3
  · refine ⟨_, by simp only [recipient_list_for_course, if_neg hg]; rfl, ?_⟩
    intro x hx
    rcases List.mem_append.mp hx with hx12 | hx3
    · rcases List.mem_append.mp hx12 with hx1 | hx2
      · simp at hx1
      · exact mem_r2_isSome c g hx2
    · exact mem_r3_isSome c g hx3

theorem sendAux_spec (e : Env) (g : RecipientGroups) :
    ∀ (courses : List Course) (m : List (Nat × List Course)),
    (∀ c ∈ courses, goodResp c) → distinctKeys m → valuesNonempty m →
    ∃ m2, sendAux e g courses m = Except.ok m2 ∧ distinctKeys m2 ∧ valuesNonempty m2 ∧
      ∀ w, lookupCourses m2 w = lookupCourses m w ++ specCharge e g w courses := by
  intro courses
  induction courses with
  | nil =>
    intro m hgood hd hv
    exact ⟨m, rfl, hd, hv, fun w => by simp [specCharge]⟩
  | cons course rest ih =>
    intro m hgood hd hv
    obtain ⟨rr, hrr⟩ := hgood course (List.mem_cons_self _ _)
    obtain ⟨recips, hrecips, hsome⟩ := recipient_list_all_some course g hrr
    obtain ⟨m2, hm2, hd2, hv2, hlook2⟩ :=
      processRecipients_spec e rr course recips m hsome hd hv
    obtain ⟨m3, hm3, hd3, hv3, hlook3⟩ :=
      ih m2 (fun x hx => hgood x (List.mem_cons_of_mem _ hx)) hd2 hv2
    refine ⟨m3, ?_, hd3, hv3, ?_⟩
    · simp [sendAux, hrr, hrecips, hm2, hm3]
    · intro w
      rw [hlook3 w, hlook2 w, List.append_assoc]
      have hcharge : courseCharge e g w course = chargeCount e rr w recips := by
        simp [courseCharge, hrr, hrecips]
      simp [specCharge, hcharge]

theorem chargeCount_pos_iff (e : Env) (rr u : Nat) (us : List (Option Nat)) :
    0 < chargeCount e rr u us ↔ (some u ∈ us ∧ passFilter e rr u = true) := by
  induction us with
  | nil => simp [chargeCount]
  | cons x us ih =>
    by_cases hx : x = some u
    · subst hx
      cases hp : passFilter e rr u with
      | true =>
        simp [chargeCount, hp, ih]
      | false =>
        simp [chargeCount, hp, ih]
    · simp [chargeCount, hx, ih, Ne.symm hx]

theorem mem_specCharge_iff (e : Env) (g : RecipientGroups) (u : Nat)
    (courses : List Course) (c : Course) :
    c ∈ specCharge e g u courses ↔ (c ∈ courses ∧ 0 < courseCharge e g u c) := by
  induction courses with
  | nil => simp [specCharge]
  | cons d rest ih =>
    simp only [specCharge, List.mem_append, ih, List.mem_replicate, List.mem_cons]
    constructor
    · rintro (⟨hn, rfl⟩ | ⟨hmem, hpos⟩)
      · exact ⟨Or.inl rfl, Nat.pos_of_ne_zero hn⟩
      · exact ⟨Or.inr hmem, hpos⟩
    · rintro ⟨hc | hmem, hpos⟩
      · subst hc
        exact Or.inl ⟨Nat.pos_iff_ne_zero.mp hpos, rfl⟩
      · exact Or.inr ⟨hmem, hpos⟩

theorem specCharge_ne_nil_iff (e : Env) (g : RecipientGroups) (u : Nat)
    (courses : List Course) :
    specCharge e g u courses ≠ [] ↔ ∃ c ∈ courses, 0 < courseCharge e g u c := by
  constructor
  · intro h
    obtain ⟨c, hc⟩ := List.exists_mem_of_ne_nil _ h
    obtain ⟨h1, h2⟩ := (mem_specCharge_iff e g u courses c).mp hc
    exact ⟨c, h1, h2⟩
  · rintro ⟨c, hc, hpos⟩
    intro hnil
    have hmem := (mem_specCharge_iff e g u courses c).mpr ⟨hc, hpos⟩
    rw [hnil] at hmem
    simp at hmem

theorem chargedFor_iff_pos (e : Env) (g : RecipientGroups) (c : Course) (u : Nat) :
    chargedFor e g c u = true ↔ 0 < courseCharge e g u c := by
  cases hr : c.responsible_contributor with
  | error e1 => simp [chargedFor, courseCharge, hr]
  | ok ro =>
    cases ro with
    | none => simp [chargedFor, courseCharge, hr]
    | some rr =>
      cases hl : recipient_list_for_course c g with
      | error e1 => simp [chargedFor, courseCharge, hr, hl]
      | ok recips =>
        simp only [chargedFor, courseCharge, hr, hl]
        rw [chargeCount_pos_iff]
        simp [Bool.and_eq_true]

/-- C6: for every recipient-group selection and course list (each course with a
unique responsible contributor), send_to_users_in_courses builds a map with
pairwise-distinct users in which a user is associated with exactly the courses
for which they occur in the course's recipient list, have an email address, and
are neither a cc_user nor a delegate of that course's responsible contributor;
a user qualifying for several courses appears once, with all their qualifying
courses accumulated. -/
theorem send_to_users_in_courses_spec (e : Env) (g : RecipientGroups)
    (courses : List Course)
    (hgood : ∀ c ∈ courses, ∃ rr, c.responsible_contributor = Except.ok (some rr)) :
    ∃ m, send_to_users_in_courses e g courses = Except.ok m ∧
      distinctKeys m ∧
      (∀ u cs, (u, cs) ∈ m → ∀ c, c ∈ cs ↔ (c ∈ courses ∧ chargedFor e g c u = true)) ∧
      (∀ u, (∃ cs, (u, cs) ∈ m) ↔ ∃ c ∈ courses, chargedFor e g c u = true) := by
  obtain ⟨m, hm, hd, hv, hlook⟩ := sendAux_spec e g courses [] hgood
    (by simp [distinctKeys]) (by intro p hp; simp at hp)
  refine ⟨m, hm, hd, ?_, ?_⟩
  · intro u cs hmem c
    have hcs : lookupCourses m u = cs := lookup_eq_of_mem hd hmem
    rw [← hcs, hlook u]
    have h0 : lookupCourses [] u = [] := rfl
    rw [h0, List.nil_append, mem_specCharge_iff]
    simp [chargedFor_iff_pos]
  · intro u
    rw [exists_mem_iff_lookup_ne_nil hv, hlook u]
    have h0 : lookupCourses [] u = [] := rfl
    rw [h0, List.nil_append, specCharge_ne_nil_iff]
    simp [chargedFor_iff_pos]

/-- C6 witness: the due-participants selection over the two demo courses, whose
responsible contributors are users 10 and 20. -/
theorem send_to_users_in_courses_spec_witness :
    ∃ m, send_to_users_in_courses demoEnvMail demoGroupsDue [demoCourseA, demoCourseB] =
        Except.ok m ∧
      distinctKeys m ∧
      (∀ u cs, (u, cs) ∈ m → ∀ c, c ∈ cs ↔
        (c ∈ [demoCourseA, demoCourseB] ∧
          chargedFor demoEnvMail demoGroupsDue c u = true)) ∧
      (∀ u, (∃ cs, (u, cs) ∈ m) ↔
        ∃ c ∈ [demoCourseA, demoCourseB],
          chargedFor demoEnvMail demoGroupsDue c u = true) :=
  send_to_users_in_courses_spec demoEnvMail demoGroupsDue [demoCourseA, demoCourseB]
    (by
      intro c hc
      rcases List.mem_cons.mp hc with rfl | hc2
      · exact ⟨10, rfl⟩
      · rcases List.mem_cons.mp hc2 with rfl | hc3
        · exact ⟨20, rfl⟩
        · simp at hc3)

end Evap
